import Mathlib

/-!
Shallow embedding of the time-tracker model (`src/index.js`): the
`Interval` / `Task` / `Model` classes, the global id counter `gid`, the
`delete_task` listener, JSON persistence and `formatDuration`.

Timestamps are natural numbers of milliseconds (values of `Date.now()`);
the wall clock is made explicit by passing the current reading `now` to
every operation that reads it.  The global counter `gid` is threaded
explicitly through the functions that touch it.  Durations are integers,
as JS number subtraction can go negative.
-/

namespace TimeTracker

/-- The `Interval` class: a start timestamp and an optional end timestamp
(`endMs` is `undefined` while the interval is open). -/
structure Interval where
  startMs : Nat
  endMs : Option Nat
  deriving DecidableEq

/-- The string constant `TaskStatus.RUNNING`. -/
def TaskStatus.RUNNING : String := "RUNNING"

/-- The string constant `TaskStatus.PAUSED`. -/
def TaskStatus.PAUSED : String := "PAUSED"

/-- `Interval.prototype.start`: records the current time as `startMs`. -/
def Interval.start (iv : Interval) (now : Nat) : Interval :=
  { iv with startMs := now }

/-- `Interval.prototype.stop`: records the current time as `endMs`. -/
def Interval.stop (iv : Interval) (now : Nat) : Interval :=
  { iv with endMs := some now }

/-- JS `a || b` where `a` is a number-or-undefined: yields `b` when `a`
is undefined (`none`) or the falsy number `0`, and `a` otherwise. -/
def jsOrNum (a : Option Nat) (b : Nat) : Nat :=
  match a with
  | none => b
  | some v => if v = 0 then b else v

/-- `Interval.prototype.elapsed`: `(this.endMs || Date.now()) - this.startMs`. -/
def Interval.elapsed (iv : Interval) (now : Nat) : Int :=
  (jsOrNum iv.endMs now : Int) - (iv.startMs : Int)

/-- The serialized shape of an interval (`{startMs, endMs}`; a missing or
null `endMs` is `none`). -/
structure SerializedInterval where
  startMs : Nat
  endMs : Option Nat
  deriving DecidableEq

/-- `Interval.prototype.serialize`. -/
def Interval.serialize (iv : Interval) : SerializedInterval :=
  { startMs := iv.startMs, endMs := iv.endMs }

/-- `Interval.prototype.deserialize`: a fresh interval whose two fields are
copied from the document. -/
def Interval.deserialize (s : SerializedInterval) : Interval :=
  { startMs := s.startMs, endMs := s.endMs }

/-- The `Task` class.  `status` is a JS string compared against the
`TaskStatus` constants. -/
structure Task where
  id : Nat
  name : String
  intervals : List Interval
  status : String
  deriving DecidableEq

/-- The `Task` constructor: `this.id = gid++`, `this.name = 'Task ' + id`,
no intervals, status `PAUSED`.  Returns the task and the updated counter. -/
def Task.new (gid : Nat) : Task × Nat :=
  ({ id := gid, name := "Task " ++ toString gid, intervals := [],
     status := TaskStatus.PAUSED }, gid + 1)

/-- A freshly constructed task (first component of `Task.new`). -/
def freshTask (gid : Nat) : Task :=
  (Task.new gid).1

/-- `Task.prototype.run`: push a new interval, start it at the current
time, set status `RUNNING`. -/
def Task.run (task : Task) (now : Nat) : Task :=
  { task with intervals := task.intervals ++ [{ startMs := now, endMs := none }],
              status := TaskStatus.RUNNING }

/-- `Task.prototype.pause`: stop `intervals[intervals.length - 1]` and set
status `PAUSED`.  When the interval list is empty the JS code reads
`undefined` and `interval.stop()` throws a TypeError, modelled as `none`. -/
def Task.pause (task : Task) (now : Nat) : Option Task :=
  match task.intervals.getLast? with
  | none => none
  | some iv =>
      some { task with intervals := task.intervals.dropLast ++ [iv.stop now],
                       status := TaskStatus.PAUSED }

/-- `Task.prototype.toggle`: run when paused, pause when running, and do
nothing for any other status string. -/
def Task.toggle (task : Task) (now : Nat) : Option Task :=
  if task.status = TaskStatus.PAUSED then some (task.run now)
  else if task.status = TaskStatus.RUNNING then task.pause now
  else some task

/-- JS `Array.prototype.reduce((p, c) => p + c, 0)`: a left fold from 0. -/
def sumInt (l : List Int) : Int :=
  l.foldl (fun p c => p + c) 0

/-- `Task.prototype.elapsed`: sum of `interval.elapsed()` over all
intervals. -/
def Task.elapsed (task : Task) (now : Nat) : Int :=
  sumInt (task.intervals.map (fun iv => iv.elapsed now))

/-- The serialized shape of a task. -/
structure SerializedTask where
  id : Nat
  name : String
  intervals : List SerializedInterval
  status : String
  deriving DecidableEq

/-- `Task.prototype.serialize`. -/
def Task.serialize (task : Task) : SerializedTask :=
  { id := task.id, name := task.name,
    intervals := task.intervals.map Interval.serialize,
    status := task.status }

/-- `Task.prototype.deserialize`: copies `id`, `name`, `status`, pushes the
deserialized intervals, and then executes `gid = this.id++` — a
post-increment, so the counter receives the task's (old) id and the task's
own `id` field becomes `id + 1`.  Returns the task and the new counter. -/
def Task.deserialize (task : Task) (s : SerializedTask) : Task × Nat :=
  ({ task with id := s.id + 1, name := s.name,
               intervals := task.intervals ++ s.intervals.map Interval.deserialize,
               status := s.status }, s.id)

/-- `Model.prototype.addTask`: creates a task with a fresh id, appends it
and returns it (together with the task list and updated counter). -/
def Model.addTask (tasks : List Task) (gid : Nat) : List Task × Task × Nat :=
  ((tasks ++ [(Task.new gid).1]), (Task.new gid).1, (Task.new gid).2)

/-- JS `Array.prototype.indexOf`: index of the first occurrence, `-1` when
absent. -/
def jsIndexOf : List Task → Task → Int
  | [], _ => -1
  | x :: xs, t =>
      if x = t then 0
      else
        if jsIndexOf xs t = -1 then -1 else jsIndexOf xs t + 1

/-- JS `Array.prototype.splice(start, 1)`: a negative `start` counts from
the end of the array (clamped at 0), and one element at the resulting
position is removed. -/
def jsSplice1 (l : List Task) (start : Int) : List Task :=
  let actual : Nat :=
    if start < 0 then ((l.length : Int) + start).toNat else start.toNat
  l.take actual ++ l.drop (actual + 1)

/-- The Model's `delete_task` listener:
`this.tasks.splice(this.tasks.indexOf(task), 1)`. -/
def Model.deleteTask (tasks : List Task) (task : Task) : List Task :=
  jsSplice1 tasks (jsIndexOf tasks task)

/-- A parsed JSON value (the result of `JSON.parse`). -/
inductive Json where
  | null
  | bool (b : Bool)
  | num (n : Int)
  | str (s : String)
  | arr (elems : List Json)
  | obj (fields : List (String × Json))

/-- JS property read `j.key`: `none` models `undefined` (missing key or a
non-object receiver). -/
def Json.getField : Json → String → Option Json
  | Json.obj fields, key => fields.lookup key
  | _, _ => none

/-- Reads one element of the `intervals` array into the documented shape
(spec section 6: `{startMs: int, endMs: int|null}`).  An absent or null
`endMs` is an open interval.  Elements outside that shape make the JS
silently store `undefined`/ill-typed fields (producing NaN durations
later) rather than throw; such documents fall outside this model's value
universe and are reported as an error to keep the function total. -/
def decodeSerializedInterval (j : Json) : Except String SerializedInterval :=
  match j.getField "startMs", j.getField "endMs" with
  | some (Json.num (Int.ofNat s)), some (Json.num (Int.ofNat e)) =>
      Except.ok { startMs := s, endMs := some e }
  | some (Json.num (Int.ofNat s)), some Json.null =>
      Except.ok { startMs := s, endMs := none }
  | some (Json.num (Int.ofNat s)), none =>
      Except.ok { startMs := s, endMs := none }
  | _, _ => Except.error "interval outside the modelled document shape"

/-- Reads one element of the `tasks` array.  `Task.prototype.deserialize`
throws a TypeError when `serialized.intervals` is not an array
(`serialized.intervals.forEach` is not a function); that is the error of
the first branch.  Other ill-typed fields would be stored silently by the
JS (see `decodeSerializedInterval`); they are outside the modelled value
universe and reported as the second error. -/
def decodeTask (j : Json) : Except String SerializedTask :=
  match j.getField "intervals" with
  | some (Json.arr ivs) =>
      match j.getField "id", j.getField "name", j.getField "status" with
      | some (Json.num (Int.ofNat i)), some (Json.str n), some (Json.str st) =>
          (ivs.mapM decodeSerializedInterval).map
            (fun l => { id := i, name := n, intervals := l, status := st })
      | _, _, _ => Except.error "task fields outside the modelled document shape"
  | _ => Except.error "TypeError: serialized.intervals.forEach is not a function"

/-- `Model.prototype.deserialize`: `serialized.tasks.forEach(...)` throws a
TypeError unless the `tasks` field is an array; otherwise each element is
turned into a fresh `Task` (`new Task()` bumps the counter, then
`task.deserialize` overwrites it) and appended. -/
def Model.deserialize (j : Json) (gid : Nat) : Except String (List Task × Nat) :=
  match j.getField "tasks" with
  | some (Json.arr elems) =>
      elems.foldlM
        (fun acc e =>
          (decodeTask e).map (fun s =>
            (acc.1 ++ [(Task.deserialize (freshTask acc.2) s).1],
             (Task.deserialize (freshTask acc.2) s).2)))
        ([], gid)
  | _ => Except.error "TypeError: serialized.tasks.forEach is not a function"

/-- `Model.prototype.load`: when `localStorage.getItem('timetracker')` is
absent (falsy) nothing happens and the task list stays empty; otherwise
the parsed document is fed to `Model.deserialize`. -/
def Model.load (stored : Option Json) (gid : Nat) : Except String (List Task × Nat) :=
  match stored with
  | none => Except.ok ([], gid)
  | some j => Model.deserialize j gid

/-- The function `formatDuration` of `src/index.js`: seconds by flooring
`ms / 1000`, minutes and hours by integer division, seconds and minutes
reduced mod 60, minutes and seconds padded with a leading 0 when below
ten, hours unpadded, joined by colons. -/
def formatDuration (durationMs : Nat) : String :=
  let s := durationMs / 1000
  let m := s / 60
  let h := m / 60
  let s1 := s % 60
  let m1 := m % 60
  let sStr := if s1 < 10 then "0" ++ toString s1 else toString s1
  let mStr := if m1 < 10 then "0" ++ toString m1 else toString m1
  toString h ++ ":" ++ mStr ++ ":" ++ sStr

/-- The formatting rule as the spec phrases it, re-expressed with direct
divisions: hours are the whole hours of the duration, minutes and seconds
the respective remainders, rendered `H:MM:SS` with minutes and seconds
zero-padded to two digits. -/
def formatDurationSpec (durationMs : Nat) : String :=
  let hours := durationMs / 3600000
  let minutes := durationMs / 60000 % 60
  let seconds := durationMs / 1000 % 60
  toString hours ++ ":"
    ++ (if minutes < 10 then "0" ++ toString minutes else toString minutes) ++ ":"
    ++ (if seconds < 10 then "0" ++ toString seconds else toString seconds)

/-- One call of the interval-accounting API, carrying the `Date.now()`
reading the call observes. -/
inductive Op where
  | run (t : Nat)
  | pause (t : Nat)
  deriving DecidableEq

/-- The clock reading an operation observes. -/
def opTime : Op → Nat
  | Op.run t => t
  | Op.pause t => t

/-- Applies one operation to a task. -/
def Task.applyOp (task : Task) : Op → Option Task
  | Op.run t => some (task.run t)
  | Op.pause t => task.pause t

/-- Applies a sequence of operations; `none` as soon as one call throws. -/
def Task.applyOps (task : Task) : List Op → Option Task
  | [] => some task
  | op :: ops =>
      match task.applyOp op with
      | none => none
      | some task2 => task2.applyOps ops

/-- Applies a sequence of `toggle()` calls at the given clock readings. -/
def Task.applyToggles (task : Task) : List Nat → Option Task
  | [] => some task
  | t :: ts =>
      match task.toggle t with
      | none => none
      | some task2 => task2.applyToggles ts

/-- Checks that a sequence of operations alternates correctly given
whether an open interval currently exists: `run` only without an open
interval, `pause` only with one. -/
def alternatingOps : Bool → List Op → Bool
  | _, [] => true
  | b, Op.run _ :: ops => !b && alternatingOps true ops
  | b, Op.pause _ :: ops => b && alternatingOps false ops

/-- The duration of a closed interval (`none` for an open one), as the
claim words it: `endMs - startMs`. -/
def closedDuration (iv : Interval) : Option Int :=
  match iv.endMs with
  | some e => some ((e : Int) - (iv.startMs : Int))
  | none => none

/-- The elapsed-time formula the claim states: the sum over closed
intervals of `endMs - startMs`, plus `now - startMs` when the last
interval is open. -/
def claimElapsed (task : Task) (now : Nat) : Int :=
  sumInt (task.intervals.filterMap closedDuration)
    + (match task.intervals.getLast? with
       | some iv =>
           if iv.endMs = none then (now : Int) - (iv.startMs : Int) else 0
       | none => 0)

/-- An interval closed at a positive timestamp (so that the JS falsiness
check on `endMs` does not fire). -/
def goodClosed (iv : Interval) : Prop :=
  ∃ e, iv.endMs = some e ∧ 0 < e

/-- Shape of an interval list reachable by well-alternated calls with
positive clock readings: every interval before the last is closed at a
positive time, and the last one is open or closed at a positive time
according to the flag. -/
def goodShape : Bool → List Interval → Prop
  | true, l => (∀ iv ∈ l.dropLast, goodClosed iv) ∧
      ∃ iv, l.getLast? = some iv ∧ iv.endMs = none
  | false, l => (∀ iv ∈ l.dropLast, goodClosed iv) ∧
      ∀ iv, l.getLast? = some iv → goodClosed iv

/-- The invariant maintained by `toggle()` from a fresh task: the status
is one of the two constants, all intervals before the last are closed,
when running the last interval exists and is open, and when paused every
interval is closed. -/
def toggleInv (task : Task) : Prop :=
  (task.status = TaskStatus.RUNNING ∨ task.status = TaskStatus.PAUSED) ∧
  (∀ iv ∈ task.intervals.dropLast, iv.endMs ≠ none) ∧
  (task.status = TaskStatus.RUNNING →
    ∃ iv, task.intervals.getLast? = some iv ∧ iv.endMs = none) ∧
  (task.status = TaskStatus.PAUSED → ∀ iv ∈ task.intervals, iv.endMs ≠ none)

/-! Helper lemmas. -/

/-- Serializing and deserializing an interval is the identity. -/
theorem interval_roundtrip (iv : Interval) : Interval.deserialize iv.serialize = iv := rfl

/-- An element the `getLast?` of a list returns is a member of the list. -/
theorem mem_of_getLast?_eq {α : Type} {l : List α} {a : α}
    (h : l.getLast? = some a) : a ∈ l := by
  obtain ⟨h1, h2⟩ := List.mem_getLast?_eq_getLast (x := a) h
  exact h2 ▸ List.getLast_mem h1

/-! C1 and C2: the persistence round trip and the id counter. -/

/-- C1: the claim says serialize-then-deserialize reproduces the same id,
name, status and interval list.  Name, status and intervals do round-trip,
but `gid = this.id++` post-increments the task's own id field, so the
reconstructed task's id is the serialized id plus one — the id does NOT
round-trip.  (This is the code slip; the spec makes the lossless round
trip the externally observable contract.) -/
theorem deserialize_roundtrip_changes_id :
    (∀ (gid : Nat) (t : Task),
      (Task.deserialize (freshTask gid) t.serialize).1 = { t with id := t.id + 1 }) ∧
    (∀ (gid : Nat) (t : Task),
      (Task.deserialize (freshTask gid) t.serialize).1.id ≠ t.id) := by
  have h1 : ∀ (gid : Nat) (t : Task),
      (Task.deserialize (freshTask gid) t.serialize).1 = { t with id := t.id + 1 } := by
    intro gid t
    cases t with
    | mk tid tname tivs tstatus =>
        have hcomp : ∀ iv : Interval, Interval.deserialize (Interval.serialize iv) = iv :=
          interval_roundtrip
        simp [Task.deserialize, Task.serialize, freshTask, Task.new, List.map_map,
          Function.comp_def, hcomp]
  refine ⟨h1, ?_⟩
  intro gid t
  rw [h1]
  simp

/-- C2: the claim says deserializing advances the counter to
`max(counter, id + 1)` so that the next `addTask()` id is strictly greater
than the restored id K.  Because of the `gid = this.id++` slip the counter
is actually set to K itself (ignoring the old counter entirely), and the
next `addTask()` therefore creates a task whose id EQUALS K — not
strictly greater. -/
theorem deserialize_gid_assignment_bug :
    (∀ (gid : Nat) (s : SerializedTask),
      (Task.deserialize (freshTask gid) s).2 = s.id) ∧
    (∀ (gid : Nat) (s : SerializedTask),
      (Model.addTask [] (Task.deserialize (freshTask gid) s).2).2.1.id = s.id) ∧
    (∀ (gid : Nat) (s : SerializedTask),
      ¬ s.id < (Model.addTask [] (Task.deserialize (freshTask gid) s).2).2.1.id) ∧
    (Task.deserialize (freshTask 100)
        { id := 5, name := "n", intervals := [], status := "PAUSED" }).2
      ≠ max 100 (5 + 1) := by
  refine ⟨fun gid s => rfl, fun gid s => rfl, ?_, by decide⟩
  intro gid s
  have h : (Model.addTask [] (Task.deserialize (freshTask gid) s).2).2.1.id = s.id := rfl
  rw [h]
  exact lt_irrefl s.id

/-! C5: duration formatting. -/

/-- C5: `formatDuration` renders a millisecond duration as `H:MM:SS` with
hours unpadded and minutes and seconds zero-padded to two digits, where
hours, minutes and seconds are the integer-division/mod-60 decomposition
of the whole seconds; in particular the three example values of the spec
hold. -/
theorem formatDuration_renders_hms :
    (∀ durationMs : Nat, formatDuration durationMs = formatDurationSpec durationMs) ∧
    formatDuration 0 = "0:00:00" ∧
    formatDuration 61000 = "0:01:01" ∧
    formatDuration 3661000 = "1:01:01" := by
  refine ⟨?_, by decide, by decide, by decide⟩
  intro d
  have h1 : d / 1000 / 60 = d / 60000 := by
    rw [Nat.div_div_eq_div_mul]
  have h2 : d / 60000 / 60 = d / 3600000 := by
    rw [Nat.div_div_eq_div_mul]
  simp only [formatDuration, formatDurationSpec, h1, h2]

/-! C10: the falsiness test on endMs. -/

/-- C10: an interval restored with `endMs = 0` is treated as open by
`elapsed()` — the JS check `this.endMs || Date.now()` is a falsiness
test, so an `endMs` of 0 is replaced by the current time and `elapsed()`
returns `now - startMs`. -/
theorem elapsed_endMs_zero_treated_as_open :
    ∀ (s now : Nat),
      (Interval.deserialize { startMs := s, endMs := some 0 }).elapsed now
        = (now : Int) - (s : Int) := by
  intro s now
  rfl

/-! C6: loading missing or malformed persisted state. -/

/-- C6 counterexample: the claim says `Model.load` never raises a hard
failure and leaves the task list empty on a malformed document; but on
the stored document `5` (a well-formed JSON text that is not an object)
`serialized.tasks.forEach` throws a TypeError, so load neither succeeds
nor leaves an empty list. -/
theorem load_malformed_counterexample :
    Model.load (some (Json.num 5)) 0
        = Except.error "TypeError: serialized.tasks.forEach is not a function" ∧
    Model.load (some (Json.num 5)) 0 ≠ Except.ok ([], 0) := by
  exact ⟨rfl, fun h => nomatch h⟩

/-- C6 amended: a MISSING stored document leaves the task list empty and
is not an error; but a malformed document — any parsed value whose
`tasks` field is not an array — makes `Model.load` raise a TypeError
instead of being treated as no prior state. -/
theorem load_missing_empty_malformed_raises :
    (∀ gid : Nat, Model.load none gid = Except.ok ([], gid)) ∧
    (∀ (j : Json) (gid : Nat),
      (∀ elems, j.getField "tasks" ≠ some (Json.arr elems)) →
      ∃ msg, Model.load (some j) gid = Except.error msg) := by
  refine ⟨fun gid => rfl, ?_⟩
  intro j gid h
  simp only [Model.load]
  unfold Model.deserialize
  split
  · rename_i elems heq
    exact absurd heq (h elems)
  · exact ⟨_, rfl⟩

/-- C6 witness: the amended theorem applied to the concrete malformed
document `5`. -/
theorem load_missing_empty_malformed_raises_witness :
    ∃ msg, Model.load (some (Json.num 5)) 0 = Except.error msg :=
  load_missing_empty_malformed_raises.2 (Json.num 5) 0 (fun _ h => nomatch h)

/-! C7: toggling a paused task twice. -/

/-- C7 counterexample: the claim says the single interval created by
toggling twice has `endMs` STRICTLY greater than `startMs`; but when both
toggles observe the same `Date.now()` reading (here 5 ms) the interval is
closed with `endMs = startMs`. -/
theorem toggle_twice_counterexample :
    Option.bind ((freshTask 0).toggle 5) (fun u => u.toggle 5)
        = some { freshTask 0 with
                 intervals := [{ startMs := 5, endMs := some 5 }],
                 status := TaskStatus.PAUSED } ∧
    ¬ (5 : Nat) < 5 := by
  exact ⟨rfl, by decide⟩

/-- C7 amended: toggling a paused task twice (run at `t1`, pause at `t2`)
appends exactly one interval, that interval is closed with
`startMs = t1` and `endMs = t2`, and — under a monotone clock,
`t1 ≤ t2` — its `endMs` is greater than OR EQUAL to its `startMs`
(equality exactly when both calls observe the same millisecond). -/
theorem toggle_twice_adds_one_closed_interval :
    ∀ (task : Task) (t1 t2 : Nat),
      task.status = TaskStatus.PAUSED → t1 ≤ t2 →
      Option.bind (task.toggle t1) (fun u => u.toggle t2)
          = some { task with
                   intervals := task.intervals ++ [{ startMs := t1, endMs := some t2 }],
                   status := TaskStatus.PAUSED }
        ∧ t1 ≤ t2 := by
  intro task t1 t2 hp hle
  refine ⟨?_, hle⟩
  have hrun : task.toggle t1 = some (task.run t1) := by
    simp [Task.toggle, hp]
  rw [hrun]
  show (task.run t1).toggle t2 = _
  have hnp : ¬ (task.run t1).status = TaskStatus.PAUSED := by
    show ¬ TaskStatus.RUNNING = TaskStatus.PAUSED
    decide
  have hr : (task.run t1).status = TaskStatus.RUNNING := rfl
  unfold Task.toggle
  rw [if_neg hnp, if_pos hr]
  simp [Task.pause, Task.run, Interval.stop, List.getLast?_concat, List.dropLast_concat]

/-- C7 witness: the amended theorem at the fresh paused task 0 with
toggles at 2 ms and 9 ms. -/
theorem toggle_twice_adds_one_closed_interval_witness :
    (freshTask 0).status = TaskStatus.PAUSED ∧
    (Option.bind ((freshTask 0).toggle 2) (fun u => u.toggle 9)
        = some { freshTask 0 with
                 intervals := (freshTask 0).intervals ++ [{ startMs := 2, endMs := some 9 }],
                 status := TaskStatus.PAUSED }
      ∧ 2 ≤ 9) :=
  ⟨rfl, toggle_twice_adds_one_closed_interval (freshTask 0) 2 9 rfl (by decide)⟩

/-! C8 and C9: the delete_task listener. -/

/-- A member of the list has a non-negative `indexOf`. -/
theorem jsIndexOf_of_mem :
    ∀ (l : List Task) (t : Task), t ∈ l → ∃ n : Nat, jsIndexOf l t = (n : Int) := by
  intro l t
  induction l with
  | nil => intro h; cases h
  | cons x xs ih =>
      intro h
      by_cases hx : x = t
      · exact ⟨0, by simp [jsIndexOf, hx]⟩
      · have ht : t ∈ xs := by
          rcases List.mem_cons.mp h with h1 | h1
          · exact absurd h1.symm hx
          · exact h1
        obtain ⟨n, hn⟩ := ih ht
        refine ⟨n + 1, ?_⟩
        have hne : jsIndexOf xs t ≠ -1 := by
          rw [hn]; omega
        simp [jsIndexOf, hx, hne, hn]

/-- An absent element has `indexOf` equal to `-1`. -/
theorem jsIndexOf_of_not_mem :
    ∀ (l : List Task) (t : Task), t ∉ l → jsIndexOf l t = -1 := by
  intro l t
  induction l with
  | nil => intro _; rfl
  | cons x xs ih =>
      intro h
      have hx : ¬ x = t := fun he => h (he ▸ List.mem_cons_self x xs)
      have ht : t ∉ xs := fun hm => h (List.mem_cons_of_mem x hm)
      simp [jsIndexOf, hx, ih ht]

/-- Splicing one element out at index `n + 1` of a cons keeps the head. -/
theorem jsSplice1_cons_succ (x : Task) (xs : List Task) (n : Nat) :
    jsSplice1 (x :: xs) ((n : Int) + 1) = x :: jsSplice1 xs (n : Int) := by
  have h1 : ((n : Int) + 1).toNat = n + 1 := by omega
  have h2 : ((n : Int)).toNat = n := by omega
  simp only [jsSplice1, if_neg (by omega : ¬ ((n : Int) + 1) < 0),
    if_neg (by omega : ¬ ((n : Int)) < 0), h1, h2,
    List.take_succ_cons, List.drop_succ_cons]
  simp

/-- C8: deleting a task that IS in the collection removes exactly its
first occurrence: the list decomposes as `l1 ++ t :: l2` with `t ∉ l1`,
and the listener leaves exactly `l1 ++ l2` — every other entry stays, in
the same relative order. -/
theorem delete_present_task :
    ∀ (tasks : List Task) (t : Task), t ∈ tasks →
      ∃ l1 l2, t ∉ l1 ∧ tasks = l1 ++ t :: l2 ∧
        Model.deleteTask tasks t = l1 ++ l2 := by
  intro tasks t
  induction tasks with
  | nil => intro h; cases h
  | cons x xs ih =>
      intro h
      by_cases hx : x = t
      · refine ⟨[], xs, by simp, by simp [hx], ?_⟩
        simp [Model.deleteTask, jsIndexOf, hx, jsSplice1]
      · have ht : t ∈ xs := by
          rcases List.mem_cons.mp h with h1 | h1
          · exact absurd h1.symm hx
          · exact h1
        obtain ⟨l1, l2, hnot, heq, hdel⟩ := ih ht
        refine ⟨x :: l1, l2, ?_, by simp [heq], ?_⟩
        · intro hm
          rcases List.mem_cons.mp hm with h1 | h1
          · exact hx h1.symm
          · exact hnot h1
        · obtain ⟨n, hn⟩ := jsIndexOf_of_mem xs t ht
          have hne : jsIndexOf xs t ≠ -1 := by rw [hn]; omega
          have hidx : jsIndexOf (x :: xs) t = (n : Int) + 1 := by
            simp [jsIndexOf, hx, hne, hn]
          show jsSplice1 (x :: xs) (jsIndexOf (x :: xs) t) = x :: (l1 ++ l2)
          rw [hidx, jsSplice1_cons_succ, ← hn]
          have : jsSplice1 xs (jsIndexOf xs t) = l1 ++ l2 := hdel
          rw [this]

/-- C8 witness: deleting the first of two concrete tasks. -/
theorem delete_present_task_witness :
    freshTask 0 ∈ [freshTask 0, freshTask 1] ∧
    ∃ l1 l2, freshTask 0 ∉ l1 ∧
      [freshTask 0, freshTask 1] = l1 ++ freshTask 0 :: l2 ∧
      Model.deleteTask [freshTask 0, freshTask 1] (freshTask 0) = l1 ++ l2 :=
  ⟨by decide, delete_present_task [freshTask 0, freshTask 1] (freshTask 0) (by decide)⟩

/-- C9: deleting a task that is NOT in a non-empty collection removes the
LAST task: `indexOf` returns `-1` and `splice(-1, 1)` deletes the final
element, rather than leaving the collection unchanged or signalling an
error. -/
theorem delete_absent_task_removes_last :
    ∀ (tasks : List Task) (t : Task), tasks ≠ [] → t ∉ tasks →
      Model.deleteTask tasks t = tasks.dropLast := by
  intro tasks t hne hnm
  have hlen : 0 < tasks.length := List.length_pos.mpr hne
  show jsSplice1 tasks (jsIndexOf tasks t) = tasks.dropLast
  rw [jsIndexOf_of_not_mem tasks t hnm]
  simp only [jsSplice1]
  have hc : ((-1 : Int) < 0) = True := by simp
  have hact : (if (-1 : Int) < 0 then ((tasks.length : Int) + (-1)).toNat
      else (-1 : Int).toNat) = tasks.length - 1 := by
    rw [if_pos (by omega)]
    omega
  rw [hact]
  have hdrop : tasks.length - 1 + 1 = tasks.length := by omega
  rw [hdrop, List.drop_length, List.append_nil, List.dropLast_eq_take]

/-- C9 witness: deleting an absent task from a concrete singleton
collection removes its only (last) element. -/
theorem delete_absent_task_removes_last_witness :
    ([freshTask 0] ≠ ([] : List Task) ∧ freshTask 5 ∉ [freshTask 0]) ∧
    Model.deleteTask [freshTask 0] (freshTask 5) = [freshTask 0].dropLast :=
  ⟨⟨by decide, by decide⟩,
   delete_absent_task_removes_last [freshTask 0] (freshTask 5) (by decide) (by decide)⟩

/-! C4: the trailing-open-interval invariant of toggle. -/

/-- One `toggle()` call on a task satisfying the invariant succeeds and
preserves the invariant. -/
theorem toggle_inv_step (task : Task) (t : Nat) (h : toggleInv task) :
    ∃ task2, task.toggle t = some task2 ∧ toggleInv task2 := by
  obtain ⟨hst, hdrop, hrun, hpause⟩ := h
  rcases hst with hR | hP
  · have hnp : ¬ task.status = TaskStatus.PAUSED := by
      rw [hR]; decide
    obtain ⟨iv, hlast, hopen⟩ := hrun hR
    refine ⟨{ task with
              intervals := task.intervals.dropLast ++ [iv.stop t],
              status := TaskStatus.PAUSED }, ?_, ?_⟩
    · unfold Task.toggle
      rw [if_neg hnp, if_pos hR]
      unfold Task.pause
      rw [hlast]
    · refine ⟨Or.inr rfl, ?_, ?_, ?_⟩
      · intro iv2 hm
        have hiv : ({ task with
              intervals := task.intervals.dropLast ++ [iv.stop t],
              status := TaskStatus.PAUSED } : Task).intervals
            = task.intervals.dropLast ++ [iv.stop t] := rfl
        rw [hiv, List.dropLast_concat] at hm
        exact hdrop iv2 hm
      · intro hcontra
        exact ((by decide : ¬ TaskStatus.PAUSED = TaskStatus.RUNNING) hcontra).elim
      · intro _ iv2 hm
        rcases List.mem_append.mp hm with h1 | h1
        · exact hdrop iv2 h1
        · rw [List.mem_singleton.mp h1]
          simp [Interval.stop]
  · refine ⟨task.run t, ?_, ?_⟩
    · unfold Task.toggle
      rw [if_pos hP]
    · refine ⟨Or.inl rfl, ?_, ?_, ?_⟩
      · intro iv2 hm
        rw [show (task.run t).intervals
            = task.intervals ++ [{ startMs := t, endMs := none }] from rfl,
          List.dropLast_concat] at hm
        exact hpause hP iv2 hm
      · intro _
        have hiv2 : (task.run t).intervals
            = task.intervals ++ [{ startMs := t, endMs := none }] := rfl
        refine ⟨{ startMs := t, endMs := none }, ?_, rfl⟩
        rw [hiv2, List.getLast?_concat]
      · intro hcontra
        exact ((by decide : ¬ TaskStatus.RUNNING = TaskStatus.PAUSED) hcontra).elim

/-- A sequence of `toggle()` calls preserves the invariant. -/
theorem applyToggles_inv :
    ∀ (ts : List Nat) (task : Task), toggleInv task →
      ∀ task2, Task.applyToggles task ts = some task2 → toggleInv task2 := by
  intro ts
  induction ts with
  | nil =>
      intro task h task2 heq
      have : task = task2 := by
        simpa [Task.applyToggles] using heq
      exact this ▸ h
  | cons t ts ih =>
      intro task h task2 heq
      obtain ⟨u, hu, hinv⟩ := toggle_inv_step task t h
      unfold Task.applyToggles at heq
      rw [hu] at heq
      exact ih u hinv task2 heq

/-- C4: from a freshly constructed task, after any sequence of `toggle()`
calls every interval before the last one is closed, a paused task has
only closed intervals, and a trailing open interval can exist only while
the status is RUNNING. -/
theorem toggle_trailing_open_invariant :
    ∀ (gid : Nat) (ts : List Nat) (task : Task),
      Task.applyToggles (freshTask gid) ts = some task →
      (∀ iv ∈ task.intervals.dropLast, iv.endMs ≠ none) ∧
      (task.status = TaskStatus.PAUSED → ∀ iv ∈ task.intervals, iv.endMs ≠ none) ∧
      (∀ iv, task.intervals.getLast? = some iv → iv.endMs = none →
        task.status = TaskStatus.RUNNING) := by
  intro gid ts task heq
  have hfresh : toggleInv (freshTask gid) := by
    refine ⟨Or.inr rfl, ?_, ?_, ?_⟩
    · intro iv hm
      cases hm
    · intro hcontra
      exact absurd hcontra
        ((by decide : ¬ TaskStatus.PAUSED = TaskStatus.RUNNING) : _)
    · intro _ iv hm
      cases hm
  obtain ⟨hst, hdrop, hrun, hpause⟩ := applyToggles_inv ts (freshTask gid) hfresh task heq
  refine ⟨hdrop, hpause, ?_⟩
  intro iv hlast hopen
  rcases hst with hR | hP
  · exact hR
  · exact absurd hopen (hpause hP iv (mem_of_getLast?_eq hlast))

/-- C4 witness: three toggles at 1 ms, 4 ms and 6 ms from fresh task 0
give a running task with one closed and one trailing open interval, and
the invariant holds there. -/
theorem toggle_trailing_open_invariant_witness :
    Task.applyToggles (freshTask 0) [1, 4, 6]
        = some { freshTask 0 with
                 intervals := [{ startMs := 1, endMs := some 4 },
                               { startMs := 6, endMs := none }],
                 status := TaskStatus.RUNNING } ∧
    ((∀ iv ∈ ({ freshTask 0 with
                 intervals := [{ startMs := 1, endMs := some 4 },
                               { startMs := 6, endMs := none }],
                 status := TaskStatus.RUNNING } : Task).intervals.dropLast,
        iv.endMs ≠ none) ∧
     (({ freshTask 0 with
                 intervals := [{ startMs := 1, endMs := some 4 },
                               { startMs := 6, endMs := none }],
                 status := TaskStatus.RUNNING } : Task).status = TaskStatus.PAUSED →
        ∀ iv ∈ ({ freshTask 0 with
                 intervals := [{ startMs := 1, endMs := some 4 },
                               { startMs := 6, endMs := none }],
                 status := TaskStatus.RUNNING } : Task).intervals, iv.endMs ≠ none) ∧
     (∀ iv, ({ freshTask 0 with
                 intervals := [{ startMs := 1, endMs := some 4 },
                               { startMs := 6, endMs := none }],
                 status := TaskStatus.RUNNING } : Task).intervals.getLast? = some iv →
        iv.endMs = none →
        ({ freshTask 0 with
                 intervals := [{ startMs := 1, endMs := some 4 },
                               { startMs := 6, endMs := none }],
                 status := TaskStatus.RUNNING } : Task).status = TaskStatus.RUNNING)) :=
  ⟨rfl, toggle_trailing_open_invariant 0 [1, 4, 6] _ rfl⟩

/-! C3: the elapsed-time formula. -/

/-- Folding addition from an arbitrary start value. -/
theorem foldl_add_from (l : List Int) :
    ∀ a : Int, l.foldl (fun p c => p + c) a = a + l.foldl (fun p c => p + c) 0 := by
  induction l with
  | nil => intro a; simp
  | cons x xs ih =>
      intro a
      simp only [List.foldl_cons]
      rw [ih (a + x), ih (0 + x)]
      ring

/-- The JS reduce: unfolding one element. -/
theorem sumInt_cons (x : Int) (l : List Int) : sumInt (x :: l) = x + sumInt l := by
  unfold sumInt
  rw [List.foldl_cons, foldl_add_from]
  ring

/-- Decomposition of the summed elapsed times: when every interval before
the last is closed at a positive time and the last one is open or so
closed, the code's sum equals the closed-interval sum plus the
open-trailing-interval term. -/
theorem elapsed_sum_decompose :
    ∀ (l : List Interval) (now : Nat),
      (∀ iv ∈ l.dropLast, goodClosed iv) →
      (∀ iv, l.getLast? = some iv → iv.endMs = none ∨ goodClosed iv) →
      sumInt (l.map (fun iv => iv.elapsed now)) =
        sumInt (l.filterMap closedDuration)
          + (match l.getLast? with
             | some iv => if iv.endMs = none then (now : Int) - (iv.startMs : Int) else 0
             | none => 0) := by
  intro l
  induction l with
  | nil =>
      intro now _ _
      rfl
  | cons x xs ih =>
      intro now hdrop hlast
      cases xs with
      | nil =>
          rcases hlast x (List.getLast?_singleton x) with hopen | ⟨e, he, hpos⟩
          · simp [Interval.elapsed, jsOrNum, hopen, sumInt, closedDuration,
              List.getLast?_singleton]
          · have hne : e ≠ 0 := by omega
            simp [Interval.elapsed, jsOrNum, he, hne, sumInt, closedDuration,
              List.getLast?_singleton]
      | cons y ys =>
          have hdl : (x :: y :: ys).dropLast = x :: (y :: ys).dropLast := rfl
          obtain ⟨e, he, hpos⟩ :=
            hdrop x (by rw [hdl]; exact List.mem_cons_self x ((y :: ys).dropLast))
          have hdrop2 : ∀ iv ∈ (y :: ys).dropLast, goodClosed iv := by
            intro iv hm
            exact hdrop iv (by rw [hdl]; exact List.mem_cons_of_mem x hm)
          have hlast2 : ∀ iv, (y :: ys).getLast? = some iv →
              iv.endMs = none ∨ goodClosed iv := by
            intro iv hm
            exact hlast iv (by rw [List.getLast?_cons_cons]; exact hm)
          have hne : e ≠ 0 := by omega
          have hx : Interval.elapsed x now = (e : Int) - (x.startMs : Int) := by
            simp [Interval.elapsed, jsOrNum, he, hne]
          have hcd : closedDuration x = some ((e : Int) - (x.startMs : Int)) := by
            simp [closedDuration, he]
          rw [List.map_cons, sumInt_cons, hx, ih now hdrop2 hlast2,
            List.filterMap_cons_some hcd, sumInt_cons, List.getLast?_cons_cons]
          ring

/-- Every interval of a list in paused shape is closed at a positive
time. -/
theorem goodShape_false_all_closed :
    ∀ (l : List Interval), goodShape false l → ∀ iv ∈ l, goodClosed iv := by
  intro l hshape iv hm
  obtain ⟨hdrop, hlast⟩ := hshape
  rcases List.eq_nil_or_concat l with rfl | ⟨L, b, rfl⟩
  · cases hm
  · rw [List.concat_eq_append] at hm hdrop hlast
    rcases List.mem_append.mp hm with h1 | h1
    · exact hdrop iv (by rw [List.dropLast_concat]; exact h1)
    · rw [List.mem_singleton.mp h1]
      exact hlast b (List.getLast?_concat L)

/-- Well-alternated positive-time operation sequences succeed and keep the
interval list in good shape. -/
theorem applyOps_goodShape :
    ∀ (ops : List Op) (b : Bool) (task : Task),
      goodShape b task.intervals →
      alternatingOps b ops = true →
      (∀ op ∈ ops, 0 < opTime op) →
      ∃ task2 b2, Task.applyOps task ops = some task2 ∧ goodShape b2 task2.intervals := by
  intro ops
  induction ops with
  | nil =>
      intro b task hshape _ _
      exact ⟨task, b, rfl, hshape⟩
  | cons op ops ih =>
      intro b task hshape halt htimes
      have htimes2 : ∀ o ∈ ops, 0 < opTime o :=
        fun o hm => htimes o (List.mem_cons_of_mem op hm)
      cases op with
      | run t =>
          have hb : b = false := by
            cases b
            · rfl
            · simp [alternatingOps] at halt
          subst hb
          have halt2 : alternatingOps true ops = true := by
            simpa [alternatingOps] using halt
          have hiv : (task.run t).intervals
              = task.intervals ++ [{ startMs := t, endMs := none }] := rfl
          have hshape2 : goodShape true (task.run t).intervals := by
            constructor
            · intro iv hm
              rw [hiv, List.dropLast_concat] at hm
              exact goodShape_false_all_closed task.intervals hshape iv hm
            · refine ⟨{ startMs := t, endMs := none }, ?_, rfl⟩
              rw [hiv, List.getLast?_concat]
          obtain ⟨task2, b2, happ, hsh⟩ := ih true (task.run t) hshape2 halt2 htimes2
          refine ⟨task2, b2, ?_, hsh⟩
          unfold Task.applyOps Task.applyOp
          exact happ
      | pause t =>
          have hb : b = true := by
            cases b
            · simp [alternatingOps] at halt
            · rfl
          subst hb
          have halt2 : alternatingOps false ops = true := by
            simpa [alternatingOps] using halt
          obtain ⟨hdrop, iv, hl, hopen⟩ := hshape
          have ht : 0 < t := htimes (Op.pause t) (List.mem_cons_self _ _)
          have hpau : task.pause t
              = some { task with
                       intervals := task.intervals.dropLast ++ [iv.stop t],
                       status := TaskStatus.PAUSED } := by
            unfold Task.pause
            rw [hl]
          have hiv : ({ task with
                       intervals := task.intervals.dropLast ++ [iv.stop t],
                       status := TaskStatus.PAUSED } : Task).intervals
              = task.intervals.dropLast ++ [iv.stop t] := rfl
          have hshape2 : goodShape false ({ task with
                       intervals := task.intervals.dropLast ++ [iv.stop t],
                       status := TaskStatus.PAUSED } : Task).intervals := by
            constructor
            · intro iv2 hm
              rw [hiv, List.dropLast_concat] at hm
              exact hdrop iv2 hm
            · intro iv2 hm
              rw [hiv, List.getLast?_concat] at hm
              rw [← Option.some.inj hm]
              exact ⟨t, rfl, ht⟩
          obtain ⟨task2, b2, happ, hsh⟩ :=
            ih false _ hshape2 halt2 htimes2
          refine ⟨task2, b2, ?_, hsh⟩
          show (match task.applyOp (Op.pause t) with
                | none => none
                | some u => u.applyOps ops) = some task2
          show (match task.pause t with
                | none => none
                | some u => u.applyOps ops) = some task2
          rw [hpau]
          exact happ

/-- C3 counterexample: the claim quantifies over ALL run/pause sequences
that only restrict pause (it must see an open interval).  Two failures:
(a) `run(); run()` leaves two open intervals and `elapsed()` counts both,
while the claim's formula counts only the trailing one; (b) a pause at
clock reading 0 closes an interval with `endMs = 0`, which `elapsed()`
treats as still open (falsiness), again diverging from the formula. -/
theorem elapsed_claim_counterexample :
    ((Task.applyOps (freshTask 0) [Op.run 1, Op.run 2]).map
        (fun u => Task.elapsed u 10)
      ≠ (Task.applyOps (freshTask 0) [Op.run 1, Op.run 2]).map
        (fun u => claimElapsed u 10)) ∧
    ((Task.applyOps (freshTask 0) [Op.run 0, Op.pause 0]).map
        (fun u => Task.elapsed u 10)
      ≠ (Task.applyOps (freshTask 0) [Op.run 0, Op.pause 0]).map
        (fun u => claimElapsed u 10)) := by
  constructor
  · decide
  · decide

/-- C3 amended: for every task produced from a fresh task by a sequence of
`run()`/`pause()` calls in which `run` occurs only when no open interval
exists and `pause` only when one does, and whose clock readings are all
positive, `elapsed()` at time `now` equals the sum over closed intervals
of `endMs - startMs` plus, if the last interval is open,
`now - startMs`. -/
theorem elapsed_matches_claim_formula :
    ∀ (gid : Nat) (ops : List Op) (now : Nat) (task : Task),
      alternatingOps false ops = true →
      (∀ op ∈ ops, 0 < opTime op) →
      Task.applyOps (freshTask gid) ops = some task →
      Task.elapsed task now = claimElapsed task now := by
  intro gid ops now task halt htimes happ
  have hfresh : goodShape false (freshTask gid).intervals := by
    constructor
    · intro iv hm
      cases hm
    · intro iv hm
      cases hm
  obtain ⟨task2, b2, happ2, hshape⟩ :=
    applyOps_goodShape ops false (freshTask gid) hfresh halt htimes
  rw [happ] at happ2
  have heq : task = task2 := Option.some.inj happ2
  subst heq
  unfold Task.elapsed claimElapsed
  apply elapsed_sum_decompose
  · intro iv hm
    cases b2 with
    | true => exact hshape.1 iv hm
    | false => exact hshape.1 iv hm
  · intro iv hm
    cases b2 with
    | true =>
        obtain ⟨_, iv2, hl2, hopen2⟩ := hshape
        rw [hm] at hl2
        rw [← Option.some.inj hl2] at hopen2
        exact Or.inl hopen2
    | false => exact Or.inr (hshape.2 iv hm)

/-- C3 witness: the amended theorem at the concrete sequence run at 1 ms,
pause at 3 ms, read at 10 ms. -/
theorem elapsed_matches_claim_formula_witness :
    (alternatingOps false [Op.run 1, Op.pause 3] = true ∧
     (∀ op ∈ [Op.run 1, Op.pause 3], 0 < opTime op) ∧
     Task.applyOps (freshTask 0) [Op.run 1, Op.pause 3]
        = some { freshTask 0 with
                 intervals := [{ startMs := 1, endMs := some 3 }],
                 status := TaskStatus.PAUSED }) ∧
    Task.elapsed { freshTask 0 with
                   intervals := [{ startMs := 1, endMs := some 3 }],
                   status := TaskStatus.PAUSED } 10
      = claimElapsed { freshTask 0 with
                       intervals := [{ startMs := 1, endMs := some 3 }],
                       status := TaskStatus.PAUSED } 10 :=
  ⟨⟨rfl, by decide, rfl⟩,
   elapsed_matches_claim_formula 0 [Op.run 1, Op.pause 3] 10 _ rfl (by decide) rfl⟩

end TimeTracker
